import Mathlib

/-!
Verification of the ACPI animated-brightness program (`brightness.py`).

The source is shallowly embedded over exact rationals (`ℚ` stands for the
Python floats, so the statements are about the exact field arithmetic the
program performs):

* `timed_range` embeds the generator `timed_range(start, stop, duration,
  easing_func)`.  The successive results of `(datetime.now() -
  t_start).total_seconds()` are modelled by a stream `samples : ℕ → ℚ` of
  elapsed-time readings (sample 0 is the read at line 18, sample `idx` the
  read performed during the `idx`-th loop iteration at line 24).  The
  generator is run with explicit fuel, one unit per `next()` call; the
  fuel only truncates the observation window, the code's own stopping
  condition (`t_scaled < 1`) is embedded faithfully.
* `AcpiBrightnessControl` embeds an open device handle: the cached `_max`
  and the integer held by the sysfs `brightness` file (each write of
  `str(int(v))` replaces the stored integer, each read parses it back).
* `brightness_get` / `brightness_set` embed the `brightness` property;
  `animate` embeds `AcpiBrightnessControl.animate` (the `time.sleep(0.001)`
  has no effect on the modelled state and is not represented).
* `main_dispatch` embeds the action/operand handling of `main`, including
  the Python truthiness test `if not args.operand:` (`pyFalsy`).
* Exceptions are embedded as `Except` values with error type `PyError`
  (`ValueError`, whose message quotes `self.max`, and `ZeroDivisionError`).
-/

/-- Python exceptions the program can raise. -/
inductive PyError where
  | valueError : PyError
  | zeroDivisionError : PyError
deriving DecidableEq

/-- Line 19 / line 25 of the source: `t_scaled = 1 - (duration - t) / duration`,
kept in this exact form. -/
def t_scaled (duration t : ℚ) : ℚ := 1 - (duration - t) / duration

/-- One `next()` step of the generator body (lines 22-26): if the current
`t_scaled` passed the `while t_scaled < 1` guard, the yielded value is
`easing_func(t_scaled) * y_span + start` computed from that guard value,
and the state is replaced by the `t_scaled` of the freshly drawn clock
sample; otherwise the generator is exhausted. -/
def timed_range_step (start stop duration : ℚ) (f : ℚ → ℚ) (ts nextSample : ℚ) :
    Option (ℚ × ℚ) :=
  if ts < 1 then
    some (f ts * (stop - start) + start, t_scaled duration nextSample)
  else none

/-- Iterate `timed_range_step`, consuming clock samples from index `idx`
upward, for at most `fuel` further `next()` calls. -/
def timed_range_aux (start stop duration : ℚ) (f : ℚ → ℚ) (samples : ℕ → ℚ) :
    ℚ → ℕ → ℕ → List ℚ
  | _, _, 0 => []
  | ts, idx, fuel + 1 =>
    match timed_range_step start stop duration f ts (samples idx) with
    | none => []
    | some (v, ts2) =>
        v :: timed_range_aux start stop duration f samples ts2 (idx + 1) fuel

/-- The generator `timed_range` (lines 10-26): clock sample 0 is read at
line 18 before the loop, and each loop iteration reads the next sample. -/
def timed_range (start stop duration : ℚ) (f : ℚ → ℚ) (samples : ℕ → ℚ)
    (fuel : ℕ) : List ℚ :=
  timed_range_aux start stop duration f samples (t_scaled duration (samples 0)) 1 fuel

/-- Proof-side reformulation of the yielded list: the `n`-th produced value
is computed from clock sample `n`.  `timed_range_aux_eq_vals` proves it
equal to the stepwise embedding. -/
def timed_range_vals (start stop duration : ℚ) (f : ℚ → ℚ) (samples : ℕ → ℚ) :
    ℕ → ℕ → List ℚ
  | _, 0 => []
  | n, fuel + 1 =>
    if t_scaled duration (samples n) < 1 then
      (f (t_scaled duration (samples n)) * (stop - start) + start) ::
        timed_range_vals start stop duration f samples (n + 1) fuel
    else []

/-- Division-checked variant of `t_scaled`: Python raises
`ZeroDivisionError` when `duration == 0` in `(duration - t) / duration`. -/
def t_scaledE (duration t : ℚ) : Except PyError ℚ :=
  if duration = 0 then Except.error PyError.zeroDivisionError
  else Except.ok (1 - (duration - t) / duration)

/-- Division-checked loop of the generator: in each iteration the fresh
`t_scaled` is computed (and may raise) before the pending value is
yielded. -/
def timed_range_auxE (start stop duration : ℚ) (f : ℚ → ℚ) (samples : ℕ → ℚ) :
    ℚ → ℕ → ℕ → Except PyError (List ℚ)
  | _, _, 0 => Except.ok []
  | ts, idx, fuel + 1 =>
    if ts < 1 then
      match t_scaledE duration (samples idx) with
      | Except.error e => Except.error e
      | Except.ok ts2 =>
          (timed_range_auxE start stop duration f samples ts2 (idx + 1) fuel).map
            (fun l => (f ts * (stop - start) + start) :: l)
    else Except.ok []

/-- Division-checked embedding of the whole generator.  Fuel 0 is the bare
`timed_range(...)` call, which runs no generator code; the first unit of
fuel is the first `next()`, which evaluates lines 18-19 (the first
progress computation) before reaching the loop. -/
def timed_rangeE (start stop duration : ℚ) (f : ℚ → ℚ) (samples : ℕ → ℚ) :
    ℕ → Except PyError (List ℚ)
  | 0 => Except.ok []
  | fuel + 1 =>
    match t_scaledE duration (samples 0) with
    | Except.error e => Except.error e
    | Except.ok ts0 => timed_range_auxE start stop duration f samples ts0 1 (fuel + 1)

/-- Python `int()` truncation toward zero. -/
def pyInt (q : ℚ) : ℤ := if 0 ≤ q then ⌊q⌋ else ⌈q⌉

/-- An open `AcpiBrightnessControl` handle: the cached `_max` (line 46) and
the integer currently stored in the device's `brightness` file. -/
structure AcpiBrightnessControl where
  max : ℤ
  device : ℤ
deriving DecidableEq

/-- The `brightness` property getter (lines 59-62): re-reads the device. -/
def brightness_get (ctl : AcpiBrightnessControl) : ℤ := ctl.device

/-- The `brightness` property setter (lines 64-71): raises `ValueError`
(whose message quotes `self.max`) when `new_brightness > self.max`, else
writes `str(int(new_brightness))` to the device.  There is no check
against negative values. -/
def brightness_set (ctl : AcpiBrightnessControl) (v : ℚ) :
    Except PyError AcpiBrightnessControl :=
  if v > (ctl.max : ℚ) then Except.error PyError.valueError
  else Except.ok { ctl with device := pyInt v }

/-- The write loop of `animate` (lines 79-82): each produced value is
assigned to `self.brightness`; a raised `ValueError` aborts the loop.  The
error value records the handle state at the abort (the last successfully
written value still in place) and the offending value. -/
def animate_writes :
    AcpiBrightnessControl → List ℚ →
      Except (AcpiBrightnessControl × ℚ) AcpiBrightnessControl
  | ctl, [] => Except.ok ctl
  | ctl, v :: rest =>
    match brightness_set ctl v with
    | Except.error _ => Except.error (ctl, v)
    | Except.ok ctl2 => animate_writes ctl2 rest

/-- `AcpiBrightnessControl.animate` (lines 73-82): reads the current
brightness as `start`, builds the generator, and writes each produced
value (the 1 ms sleep does not affect the modelled state). -/
def animate (ctl : AcpiBrightnessControl) (new_brightness duration : ℚ)
    (f : ℚ → ℚ) (samples : ℕ → ℚ) (fuel : ℕ) :
    Except (AcpiBrightnessControl × ℚ) AcpiBrightnessControl :=
  animate_writes ctl
    (timed_range ((brightness_get ctl : ℤ) : ℚ) new_brightness duration f samples fuel)

/-- The CLI actions of `main` (`show` and `max` renamed, `show` being a
Lean keyword and `Action` a Mathlib name). -/
inductive CliAction where
  | showAction : CliAction
  | maxAction : CliAction
  | set : CliAction
  | inc : CliAction
  | dec : CliAction
deriving DecidableEq

/-- Observable outcome of `main`'s dispatch: a printed value, a usage
error on stderr followed by `sys.exit(code)` with the device untouched,
or entry into `animate` toward the computed target. -/
inductive MainResult where
  | printed : ℤ → MainResult
  | usageError : ℕ → MainResult
  | animated : ℤ → MainResult
deriving DecidableEq

/-- Python truthiness of `args.operand` as used in `if not args.operand:`
(line 130): `None` and `0` are both falsy. -/
def pyFalsy : Option ℤ → Bool
  | none => true
  | some n => n == 0

/-- The action/operand dispatch of `main` (lines 121-159): `show` and
`max` print; for `set`/`inc`/`dec` the guard `if not args.operand:`
reports a usage error and exits with code 1 before the device is touched,
and otherwise the target brightness is computed and `animate` is
entered. -/
def main_dispatch (ctl : AcpiBrightnessControl) (action : CliAction)
    (operand : Option ℤ) : MainResult :=
  match action with
  | CliAction.showAction => MainResult.printed (brightness_get ctl)
  | CliAction.maxAction => MainResult.printed ctl.max
  | _ =>
    if pyFalsy operand then MainResult.usageError 1
    else
      MainResult.animated
        (match action with
         | CliAction.set => operand.getD 0
         | CliAction.inc => brightness_get ctl + operand.getD 0
         | CliAction.dec => brightness_get ctl - operand.getD 0
         | _ => brightness_get ctl)

theorem t_scaled_eq (duration t : ℚ) (hd : duration ≠ 0) :
    t_scaled duration t = t / duration := by
  unfold t_scaled
  field_simp

theorem t_scaled_nonneg (duration t : ℚ) (hd : 0 < duration) (ht : 0 ≤ t) :
    0 ≤ t_scaled duration t := by
  rw [t_scaled_eq duration t hd.ne.symm]
  exact div_nonneg ht hd.le

theorem t_scaled_mono (duration t1 t2 : ℚ) (hd : 0 < duration) (h : t1 ≤ t2) :
    t_scaled duration t1 ≤ t_scaled duration t2 := by
  rw [t_scaled_eq duration t1 hd.ne.symm, t_scaled_eq duration t2 hd.ne.symm]
  gcongr

theorem one_le_t_scaled (duration t : ℚ) (hd : 0 < duration) (h : duration ≤ t) :
    1 ≤ t_scaled duration t := by
  rw [t_scaled_eq duration t hd.ne.symm, le_div_iff₀ hd]
  linarith

theorem pyInt_intCast (n : ℤ) : pyInt (n : ℚ) = n := by
  unfold pyInt
  split <;> simp

theorem pyInt_le (q : ℚ) (m : ℤ) (h : q ≤ (m : ℚ)) : pyInt q ≤ m := by
  unfold pyInt
  split
  · calc ⌊q⌋ ≤ ⌊(m : ℚ)⌋ := Int.floor_le_floor h
      _ = m := Int.floor_intCast m
  · exact Int.ceil_le.mpr h

theorem pyInt_nonneg (q : ℚ) (h : 0 ≤ q) : 0 ≤ pyInt q := by
  unfold pyInt
  rw [if_pos h]
  exact Int.floor_nonneg.mpr h

theorem timed_range_aux_succ (start stop duration : ℚ) (f : ℚ → ℚ)
    (samples : ℕ → ℚ) (ts : ℚ) (idx fuel : ℕ) :
    timed_range_aux start stop duration f samples ts idx (fuel + 1) =
      if ts < 1 then
        (f ts * (stop - start) + start) ::
          timed_range_aux start stop duration f samples
            (t_scaled duration (samples idx)) (idx + 1) fuel
      else [] := by
  by_cases h : ts < 1 <;> simp [timed_range_aux, timed_range_step, h]

theorem timed_range_vals_succ (start stop duration : ℚ) (f : ℚ → ℚ)
    (samples : ℕ → ℚ) (n fuel : ℕ) :
    timed_range_vals start stop duration f samples n (fuel + 1) =
      if t_scaled duration (samples n) < 1 then
        (f (t_scaled duration (samples n)) * (stop - start) + start) ::
          timed_range_vals start stop duration f samples (n + 1) fuel
      else [] := rfl

theorem timed_range_aux_eq_vals (start stop duration : ℚ) (f : ℚ → ℚ)
    (samples : ℕ → ℚ) : ∀ fuel n : ℕ,
    timed_range_aux start stop duration f samples
      (t_scaled duration (samples n)) (n + 1) fuel =
    timed_range_vals start stop duration f samples n fuel := by
  intro fuel
  induction fuel with
  | zero => intro n; rfl
  | succ fuel ih =>
      intro n
      rw [timed_range_aux_succ, timed_range_vals_succ]
      by_cases h : t_scaled duration (samples n) < 1
      · rw [if_pos h, if_pos h, ih (n + 1)]
      · rw [if_neg h, if_neg h]

theorem timed_range_eq_vals (start stop duration : ℚ) (f : ℚ → ℚ)
    (samples : ℕ → ℚ) (fuel : ℕ) :
    timed_range start stop duration f samples fuel =
      timed_range_vals start stop duration f samples 0 fuel :=
  timed_range_aux_eq_vals start stop duration f samples fuel 0

theorem timed_range_vals_length_le (start stop duration : ℚ) (f : ℚ → ℚ)
    (samples : ℕ → ℚ) : ∀ fuel n : ℕ,
    (timed_range_vals start stop duration f samples n fuel).length ≤ fuel := by
  intro fuel
  induction fuel with
  | zero => intro n; simp [timed_range_vals]
  | succ fuel ih =>
      intro n
      rw [timed_range_vals_succ]
      by_cases h : t_scaled duration (samples n) < 1
      · rw [if_pos h]
        simpa using ih (n + 1)
      · rw [if_neg h]
        simp

theorem timed_range_vals_halt (start stop duration : ℚ) (f : ℚ → ℚ)
    (samples : ℕ → ℚ) (n fuel : ℕ)
    (h : ¬ t_scaled duration (samples n) < 1) :
    timed_range_vals start stop duration f samples n fuel = [] := by
  cases fuel with
  | zero => rfl
  | succ fuel => rw [timed_range_vals_succ, if_neg h]

theorem timed_range_vals_stable (start stop duration : ℚ) (f : ℚ → ℚ)
    (samples : ℕ → ℚ) : ∀ k n fuel : ℕ,
    1 ≤ t_scaled duration (samples (n + k)) → k ≤ fuel →
    timed_range_vals start stop duration f samples n fuel =
      timed_range_vals start stop duration f samples n k := by
  intro k
  induction k with
  | zero =>
      intro n fuel h1 _
      have h2 : ¬ t_scaled duration (samples n) < 1 := by
        rw [← Nat.add_zero n]
        exact not_lt.mpr h1
      rw [timed_range_vals_halt start stop duration f samples n fuel h2]
      rfl
  | succ k ih =>
      intro n fuel h1 hk
      obtain ⟨fuel2, rfl⟩ : ∃ m, fuel = m + 1 := ⟨fuel - 1, by omega⟩
      rw [timed_range_vals_succ, timed_range_vals_succ]
      by_cases h : t_scaled duration (samples n) < 1
      · rw [if_pos h, if_pos h]
        have hidx : n + 1 + k = n + (k + 1) := by omega
        have h1b : 1 ≤ t_scaled duration (samples (n + 1 + k)) := by
          rw [hidx]; exact h1
        rw [ih (n + 1) fuel2 h1b (by omega)]
      · rw [if_neg h, if_neg h]

theorem timed_range_vals_getD (start stop duration : ℚ) (f : ℚ → ℚ)
    (samples : ℕ → ℚ) : ∀ fuel n j : ℕ,
    j < (timed_range_vals start stop duration f samples n fuel).length →
    (timed_range_vals start stop duration f samples n fuel).getD j 0 =
        f (t_scaled duration (samples (n + j))) * (stop - start) + start ∧
      t_scaled duration (samples (n + j)) < 1 := by
  intro fuel
  induction fuel with
  | zero => intro n j h; simp [timed_range_vals] at h
  | succ fuel ih =>
      intro n j h
      rw [timed_range_vals_succ] at h ⊢
      by_cases hg : t_scaled duration (samples n) < 1
      · rw [if_pos hg] at h ⊢
        cases j with
        | zero => simpa using hg
        | succ j =>
            have h2 : j < (timed_range_vals start stop duration f samples (n + 1) fuel).length := by
              simpa using h
            have h3 := ih (n + 1) j h2
            have hidx : n + 1 + j = n + (j + 1) := by omega
            rw [hidx] at h3
            simpa using h3
      · rw [if_neg hg] at h
        simp at h

theorem timed_range_vals_head? (start stop duration : ℚ) (f : ℚ → ℚ)
    (samples : ℕ → ℚ) (n fuel : ℕ) :
    (timed_range_vals start stop duration f samples n fuel).head? = none ∨
      (timed_range_vals start stop duration f samples n fuel).head? =
        some (f (t_scaled duration (samples n)) * (stop - start) + start) := by
  cases fuel with
  | zero => left; rfl
  | succ fuel =>
      rw [timed_range_vals_succ]
      by_cases hg : t_scaled duration (samples n) < 1
      · right; rw [if_pos hg]; rfl
      · left; rw [if_neg hg]; rfl

theorem ease_val_bounds (s e ts : ℚ) (h0 : 0 ≤ ts) (h1 : ts < 1) :
    min s e ≤ ts * (e - s) + s ∧ ts * (e - s) + s ≤ max s e := by
  rcases le_total s e with h | h
  · rw [min_eq_left h, max_eq_right h]
    constructor <;> nlinarith
  · rw [min_eq_right h, max_eq_left h]
    constructor <;> nlinarith

theorem timed_range_vals_mem_bounds (start stop duration : ℚ) (samples : ℕ → ℚ)
    (hd : 0 < duration) (hnn : ∀ m, 0 ≤ samples m) : ∀ fuel n : ℕ,
    ∀ v ∈ timed_range_vals start stop duration (fun t => t) samples n fuel,
      min start stop ≤ v ∧ v ≤ max start stop := by
  intro fuel
  induction fuel with
  | zero => intro n v hv; simp [timed_range_vals] at hv
  | succ fuel ih =>
      intro n v hv
      rw [timed_range_vals_succ] at hv
      by_cases hg : t_scaled duration (samples n) < 1
      · rw [if_pos hg] at hv
        rcases List.mem_cons.mp hv with h | h
        · subst h
          exact ease_val_bounds start stop (t_scaled duration (samples n))
            (t_scaled_nonneg duration (samples n) hd (hnn n)) hg
        · exact ih (n + 1) v h
      · rw [if_neg hg] at hv
        simp at hv

theorem timed_range_vals_chain_le (start stop duration : ℚ) (samples : ℕ → ℚ)
    (hd : 0 < duration) (hadj : ∀ m, samples m ≤ samples (m + 1))
    (hspan : start ≤ stop) : ∀ fuel n : ℕ,
    List.Chain' (· ≤ ·) (timed_range_vals start stop duration (fun t => t) samples n fuel) := by
  intro fuel
  induction fuel with
  | zero => intro n; simp [timed_range_vals]
  | succ fuel ih =>
      intro n
      rw [timed_range_vals_succ]
      by_cases hg : t_scaled duration (samples n) < 1
      · rw [if_pos hg]
        refine List.chain'_cons'.mpr ⟨?_, ih (n + 1)⟩
        intro b hb
        rcases timed_range_vals_head? start stop duration (fun t => t) samples (n + 1) fuel
          with h | h
        · rw [h] at hb; simp at hb
        · rw [h] at hb
          simp only [Option.mem_def, Option.some.injEq] at hb
          subst hb
          have hts := t_scaled_mono duration (samples n) (samples (n + 1)) hd (hadj n)
          nlinarith [sub_nonneg.mpr hspan]
      · rw [if_neg hg]
        simp

theorem timed_range_vals_chain_ge (start stop duration : ℚ) (samples : ℕ → ℚ)
    (hd : 0 < duration) (hadj : ∀ m, samples m ≤ samples (m + 1))
    (hspan : stop ≤ start) : ∀ fuel n : ℕ,
    List.Chain' (fun a b => b ≤ a)
      (timed_range_vals start stop duration (fun t => t) samples n fuel) := by
  intro fuel
  induction fuel with
  | zero => intro n; simp [timed_range_vals]
  | succ fuel ih =>
      intro n
      rw [timed_range_vals_succ]
      by_cases hg : t_scaled duration (samples n) < 1
      · rw [if_pos hg]
        refine List.chain'_cons'.mpr ⟨?_, ih (n + 1)⟩
        intro b hb
        rcases timed_range_vals_head? start stop duration (fun t => t) samples (n + 1) fuel
          with h | h
        · rw [h] at hb; simp at hb
        · rw [h] at hb
          simp only [Option.mem_def, Option.some.injEq] at hb
          subst hb
          have hts := t_scaled_mono duration (samples n) (samples (n + 1)) hd (hadj n)
          nlinarith [sub_nonneg.mpr hspan]
      · rw [if_neg hg]
        simp

theorem timed_range_auxE_eq (start stop duration : ℚ) (f : ℚ → ℚ)
    (samples : ℕ → ℚ) (hd : duration ≠ 0) : ∀ (fuel : ℕ) (ts : ℚ) (idx : ℕ),
    timed_range_auxE start stop duration f samples ts idx fuel =
      Except.ok (timed_range_aux start stop duration f samples ts idx fuel) := by
  intro fuel
  induction fuel with
  | zero => intro ts idx; rfl
  | succ fuel ih =>
      intro ts idx
      by_cases h : ts < 1
      · simp only [timed_range_auxE, timed_range_aux, timed_range_step,
          t_scaledE, if_pos h, if_neg hd, ih]
        rfl
      · simp only [timed_range_auxE, timed_range_aux, timed_range_step,
          if_neg h]

theorem brightness_set_ok_elim (ctl ctl2 : AcpiBrightnessControl) (v : ℚ)
    (h : brightness_set ctl v = Except.ok ctl2) :
    v ≤ (ctl.max : ℚ) ∧ ctl2 = ⟨ctl.max, pyInt v⟩ := by
  by_cases hv : v > (ctl.max : ℚ)
  · rw [brightness_set, if_pos hv] at h
    exact absurd h (by simp)
  · rw [brightness_set, if_neg hv] at h
    simp only [Except.ok.injEq] at h
    exact ⟨not_lt.mp hv, h.symm⟩

theorem brightness_set_error_of_gt (ctl : AcpiBrightnessControl) (v : ℚ)
    (hv : (ctl.max : ℚ) < v) :
    brightness_set ctl v = Except.error PyError.valueError := by
  rw [brightness_set, if_pos hv]

theorem animate_writes_ok_max : ∀ (l : List ℚ) (ctl ctl2 : AcpiBrightnessControl),
    animate_writes ctl l = Except.ok ctl2 → ctl2.max = ctl.max := by
  intro l
  induction l with
  | nil =>
      intro ctl ctl2 h
      simp only [animate_writes, Except.ok.injEq] at h
      rw [← h]
  | cons v rest ih =>
      intro ctl ctl2 h
      simp only [animate_writes] at h
      cases hbs : brightness_set ctl v with
      | error e => rw [hbs] at h; simp at h
      | ok ctl3 =>
          rw [hbs] at h
          have h4 := (brightness_set_ok_elim ctl ctl3 v hbs).2
          rw [ih ctl3 ctl2 h, h4]

theorem animate_writes_append_error :
    ∀ (pre : List ℚ) (ctl ctl2 : AcpiBrightnessControl) (v : ℚ) (post : List ℚ),
    animate_writes ctl pre = Except.ok ctl2 → (ctl2.max : ℚ) < v →
    animate_writes ctl (pre ++ v :: post) = Except.error (ctl2, v) := by
  intro pre
  induction pre with
  | nil =>
      intro ctl ctl2 v post h hv
      simp only [animate_writes, Except.ok.injEq] at h
      subst h
      simp only [List.nil_append, animate_writes,
        brightness_set_error_of_gt ctl v hv]
  | cons w ws ih =>
      intro ctl ctl2 v post h hv
      simp only [animate_writes, List.cons_append] at h ⊢
      cases hbs : brightness_set ctl w with
      | error e => rw [hbs] at h; simp at h
      | ok ctl3 =>
          rw [hbs] at h
          exact ih ctl3 ctl2 v post h hv

/-- C1 counterexample: with clock samples 0, 1/2, 1, ... seconds, duration 1,
`start = 0`, `stop = 2` and the identity easing function, the first value the
generator produces is 0, computed from the pre-loop sample (elapsed 0), even
though the production step re-sampled the clock (elapsed 1/2, the freshest
`now()` sample at the yield) — the freshest sample would give the value 1. -/
theorem timed_range_not_freshest_sample :
    (timed_range 0 2 1 (fun t => t) (fun n => (n : ℚ) / 2) 5).head? = some 0 ∧
    (fun t : ℚ => t) (t_scaled 1 ((fun n : ℕ => (n : ℚ) / 2) 1)) * (2 - 0) + 0 = 1 ∧
    (0 : ℚ) ≠ 1 := by
  refine ⟨?_, by norm_num [t_scaled], by norm_num⟩
  norm_num [timed_range, timed_range_aux, timed_range_step, t_scaled]

/-- C1 (amended): the `j`-th value produced by the timed sequencer equals
`f(t_norm) * (stop - start) + start` with
`t_norm = 1 - (duration - elapsed) / duration < 1`, where `elapsed` is clock
sample `j` — the sample checked at the loop guard, taken at the end of the
previous production step (at sequence start for the first value) — not the
sample freshly drawn within the producing step. -/
theorem timed_range_value_formula (start stop duration : ℚ) (f : ℚ → ℚ)
    (samples : ℕ → ℚ) (fuel j : ℕ)
    (h : j < (timed_range start stop duration f samples fuel).length) :
    (timed_range start stop duration f samples fuel).getD j 0 =
        f (t_scaled duration (samples j)) * (stop - start) + start ∧
      t_scaled duration (samples j) < 1 := by
  rw [timed_range_eq_vals] at h ⊢
  have h2 := timed_range_vals_getD start stop duration f samples fuel 0 j h
  simpa using h2

theorem timed_range_value_formula_witness :
    (timed_range 0 2 1 (fun t => t) (fun n => (n : ℚ) / 2) 5).getD 0 0 =
        (fun t : ℚ => t) (t_scaled 1 ((fun n : ℕ => (n : ℚ) / 2) 0)) * (2 - 0) + 0 ∧
      t_scaled 1 ((fun n : ℕ => (n : ℚ) / 2) 0) < 1 :=
  timed_range_value_formula 0 2 1 (fun t => t) (fun n => (n : ℚ) / 2) 5 0
    (by norm_num [timed_range, timed_range_aux, timed_range_step, t_scaled])

/-- C2: once some clock sample reaches `duration` (so `t_norm ≥ 1`), the
generator produces nothing further: for every amount of fuel the output has
at most `N` elements, and the output is already complete after `N` steps. -/
theorem timed_range_finite (start stop duration : ℚ) (f : ℚ → ℚ)
    (samples : ℕ → ℚ) (N : ℕ) (hd : 0 < duration) (hN : duration ≤ samples N) :
    (∀ fuel, (timed_range start stop duration f samples fuel).length ≤ N) ∧
    (∀ fuel, N ≤ fuel →
      timed_range start stop duration f samples fuel =
        timed_range start stop duration f samples N) := by
  have h1 : 1 ≤ t_scaled duration (samples (0 + N)) := by
    rw [Nat.zero_add]
    exact one_le_t_scaled duration (samples N) hd hN
  constructor
  · intro fuel
    rw [timed_range_eq_vals]
    rcases le_or_lt fuel N with h | h
    · exact le_trans (timed_range_vals_length_le start stop duration f samples fuel 0) h
    · rw [timed_range_vals_stable start stop duration f samples N 0 fuel h1 h.le]
      exact timed_range_vals_length_le start stop duration f samples N 0
  · intro fuel hf
    rw [timed_range_eq_vals, timed_range_eq_vals,
      timed_range_vals_stable start stop duration f samples N 0 fuel h1 hf]

theorem timed_range_finite_witness :
    (timed_range 0 2 1 (fun t => t) (fun n => (n : ℚ) / 2) 5).length ≤ 2 ∧
    timed_range 0 2 1 (fun t => t) (fun n => (n : ℚ) / 2) 5 =
      timed_range 0 2 1 (fun t => t) (fun n => (n : ℚ) / 2) 2 :=
  ⟨(timed_range_finite 0 2 1 (fun t => t) (fun n => (n : ℚ) / 2) 2 (by norm_num)
      (by norm_num)).1 5,
   (timed_range_finite 0 2 1 (fun t => t) (fun n => (n : ℚ) / 2) 2 (by norm_num)
      (by norm_num)).2 5 (by norm_num)⟩

/-- C9: calling `timed_range` with `duration = 0` does nothing at creation
(fuel 0), but the first `next()` raises `ZeroDivisionError` at the first
progress computation (line 19) before any value is produced, whatever the
other arguments and the clock; with `duration ≠ 0` the checked embedding
never raises and agrees with the total one. -/
theorem timed_range_zero_duration_div_error :
    (∀ (start stop : ℚ) (f : ℚ → ℚ) (samples : ℕ → ℚ) (fuel : ℕ),
        timed_rangeE start stop 0 f samples (fuel + 1) =
          Except.error PyError.zeroDivisionError) ∧
    (∀ (start stop : ℚ) (f : ℚ → ℚ) (samples : ℕ → ℚ),
        timed_rangeE start stop 0 f samples 0 = Except.ok []) ∧
    (∀ (start stop duration : ℚ) (f : ℚ → ℚ) (samples : ℕ → ℚ) (fuel : ℕ),
        duration ≠ 0 →
        timed_rangeE start stop duration f samples fuel =
          Except.ok (timed_range start stop duration f samples fuel)) := by
  refine ⟨?_, ?_, ?_⟩
  · intro start stop f samples fuel
    simp [timed_rangeE, t_scaledE]
  · intro start stop f samples
    rfl
  · intro start stop duration f samples fuel hd
    cases fuel with
    | zero => rfl
    | succ fuel =>
        simp only [timed_rangeE, t_scaledE, if_neg hd]
        exact timed_range_auxE_eq start stop duration f samples hd (fuel + 1)
          (t_scaled duration (samples 0)) 1

theorem timed_range_zero_duration_div_error_witness :
    timed_rangeE 0 2 0 (fun t => t) (fun n => (n : ℚ) / 2) 1 =
        Except.error PyError.zeroDivisionError ∧
      timed_rangeE 0 2 1 (fun t => t) (fun n => (n : ℚ) / 2) 5 =
        Except.ok (timed_range 0 2 1 (fun t => t) (fun n => (n : ℚ) / 2) 5) :=
  ⟨timed_range_zero_duration_div_error.1 0 2 (fun t => t) (fun n => (n : ℚ) / 2) 0,
   timed_range_zero_duration_div_error.2.2 0 2 1 (fun t => t) (fun n => (n : ℚ) / 2) 5
     (by norm_num)⟩

/-- C10: a successful production step yields the value computed from the
`t_scaled` sample that passed the `while t_scaled < 1` guard: that sample is
below 1, the value is `f` of it, the same value is produced whatever sample
the step freshly draws (the fresh sample only seeds the next state), and for
an easing function fixing the guard sample (e.g. the identity) with
`stop ≠ start`, the exact `stop` value is never yielded. -/
theorem timed_range_step_uses_guard_sample (start stop duration : ℚ) (f : ℚ → ℚ)
    (ts s s2 v ts2 : ℚ)
    (h : timed_range_step start stop duration f ts s = some (v, ts2)) :
    ts < 1 ∧ v = f ts * (stop - start) + start ∧
    timed_range_step start stop duration f ts s2 = some (v, t_scaled duration s2) ∧
    (f ts = ts → stop ≠ start → v ≠ stop) := by
  by_cases hg : ts < 1
  · rw [timed_range_step, if_pos hg] at h
    simp only [Option.some.injEq, Prod.mk.injEq] at h
    obtain ⟨hv, hts⟩ := h
    refine ⟨hg, hv.symm, ?_, ?_⟩
    · rw [timed_range_step, if_pos hg, hv]
    · intro hf hne heq
      rw [hf] at hv
      have h5 : ts * (stop - start) + start = stop := by rw [hv]; exact heq
      have h3 : ts * (stop - start) = 1 * (stop - start) := by linarith
      have h4 := mul_right_cancel₀ (sub_ne_zero.mpr hne) h3
      exact absurd h4 (ne_of_lt hg)
  · rw [timed_range_step, if_neg hg] at h
    exact absurd h (by simp)

theorem timed_range_step_uses_guard_sample_witness :
    (0 : ℚ) < 1 ∧ (0 : ℚ) = (fun t : ℚ => t) 0 * (2 - 0) + 0 ∧
    timed_range_step 0 2 1 (fun t => t) 0 (7 / 9) = some (0, t_scaled 1 (7 / 9)) ∧
    ((fun t : ℚ => t) 0 = 0 → (2 : ℚ) ≠ 0 → (0 : ℚ) ≠ 2) :=
  timed_range_step_uses_guard_sample 0 2 1 (fun t => t) 0 (1 / 2) (7 / 9) 0
    (t_scaled 1 (1 / 2)) (by norm_num [timed_range_step])

/-- C3 counterexample: on an open handle with `max = 10` and stored
brightness 5, `set brightness(-1)` succeeds (the setter has no lower-bound
check) and stores -1 in the device, so the live value leaves `[0, max]`. -/
theorem brightness_set_negative_breaks_lower_bound :
    brightness_set ⟨10, 5⟩ (-1) = Except.ok ⟨10, -1⟩ ∧
    ¬ (0 : ℤ) ≤ (⟨10, -1⟩ : AcpiBrightnessControl).device := by
  exact ⟨rfl, by decide⟩

/-- C3 (amended): after every successful `set brightness`, the cached `max`
is unchanged and the stored value is at most `max`; it stays at least 0 only
when the requested value is nonnegative — the lower bound is not enforced
by the handle. -/
theorem brightness_set_upper_bound (ctl ctl2 : AcpiBrightnessControl) (v : ℚ)
    (h : brightness_set ctl v = Except.ok ctl2) :
    ctl2.max = ctl.max ∧ ctl2.device ≤ ctl2.max ∧ (0 ≤ v → 0 ≤ ctl2.device) := by
  obtain ⟨hle, rfl⟩ := brightness_set_ok_elim ctl ctl2 v h
  refine ⟨rfl, ?_, ?_⟩
  · exact pyInt_le v ctl.max hle
  · intro hv
    exact pyInt_nonneg v hv

theorem brightness_set_upper_bound_witness :
    (⟨10, 3⟩ : AcpiBrightnessControl).max = (⟨10, 5⟩ : AcpiBrightnessControl).max ∧
      (⟨10, 3⟩ : AcpiBrightnessControl).device ≤ (⟨10, 3⟩ : AcpiBrightnessControl).max ∧
      ((0 : ℚ) ≤ 7 / 2 → 0 ≤ (⟨10, 3⟩ : AcpiBrightnessControl).device) :=
  brightness_set_upper_bound ⟨10, 5⟩ ⟨10, 3⟩ (7 / 2) (by norm_num [brightness_set, pyInt])

/-- C4: `set brightness(v)` raises `ValueError` when `v > max` and succeeds
otherwise — in particular negative `v` is not rejected (there is no
`v < 0` check) — and on success the integer-truncated value `int(v)` is
written to the device. -/
theorem brightness_set_range_check (ctl : AcpiBrightnessControl) (v : ℚ) :
    ((ctl.max : ℚ) < v → brightness_set ctl v = Except.error PyError.valueError) ∧
    (v ≤ (ctl.max : ℚ) → brightness_set ctl v = Except.ok ⟨ctl.max, pyInt v⟩) := by
  constructor
  · exact brightness_set_error_of_gt ctl v
  · intro hv
    rw [brightness_set, if_neg (not_lt.mpr hv)]

theorem brightness_set_range_check_witness :
    brightness_set ⟨10, 5⟩ (-3) = Except.ok ⟨10, pyInt (-3)⟩ ∧
      brightness_set ⟨10, 5⟩ 11 = Except.error PyError.valueError :=
  ⟨(brightness_set_range_check ⟨10, 5⟩ (-3)).2 (by norm_num),
   (brightness_set_range_check ⟨10, 5⟩ 11).1 (by norm_num)⟩

/-- C5: when the sequencer's output splits as `pre ++ v :: post` with all of
`pre` written successfully and `v` exceeding `max` (the check is on the raw
produced `v`, neither clamped to `[0, max]` nor rounded first), `animate`
aborts at `v`: the `ValueError` propagates out immediately, nothing in
`post` is written, and the device retains the last successfully written
value. -/
theorem animate_range_error_aborts (ctl ctl2 : AcpiBrightnessControl)
    (target duration : ℚ) (f : ℚ → ℚ) (samples : ℕ → ℚ) (fuel : ℕ)
    (pre post : List ℚ) (v : ℚ)
    (hseq : timed_range ((brightness_get ctl : ℤ) : ℚ) target duration f samples fuel =
      pre ++ v :: post)
    (hpre : animate_writes ctl pre = Except.ok ctl2)
    (hv : (ctl.max : ℚ) < v) :
    animate ctl target duration f samples fuel = Except.error (ctl2, v) := by
  have hmax : ctl2.max = ctl.max := animate_writes_ok_max pre ctl ctl2 hpre
  rw [animate, hseq]
  refine animate_writes_append_error pre ctl ctl2 v post hpre ?_
  rw [hmax]
  exact hv

theorem animate_range_error_aborts_witness :
    animate ⟨10, 4⟩ 17 1 (fun t => t) (fun n => (n : ℚ) / 2) 5 =
        Except.error (⟨10, 4⟩, 21 / 2) ∧
      pyInt (21 / 2) ≤ 10 ∧ (10 : ℚ) < 21 / 2 :=
  ⟨animate_range_error_aborts ⟨10, 4⟩ ⟨10, 4⟩ 17 1 (fun t => t) (fun n => (n : ℚ) / 2)
      5 [4] [] (21 / 2)
      (by norm_num [timed_range, timed_range_aux, timed_range_step, t_scaled,
        brightness_get])
      (by norm_num [animate_writes, brightness_set, pyInt]) (by norm_num),
   by norm_num [pyInt], by norm_num⟩

/-- C6: with the identity easing function, a positive duration and a
non-decreasing clock starting at a nonnegative elapsed time, every produced
value lies between `start` and `stop` inclusive, and the produced sequence
is non-decreasing when `start ≤ stop` and non-increasing when
`stop ≤ start`. -/
theorem timed_range_identity_monotone (start stop duration : ℚ)
    (samples : ℕ → ℚ) (fuel : ℕ) (hd : 0 < duration) (h0 : 0 ≤ samples 0)
    (hmono : Monotone samples) :
    (∀ v ∈ timed_range start stop duration (fun t => t) samples fuel,
        min start stop ≤ v ∧ v ≤ max start stop) ∧
    (start ≤ stop → List.Chain' (· ≤ ·)
      (timed_range start stop duration (fun t => t) samples fuel)) ∧
    (stop ≤ start → List.Chain' (fun a b => b ≤ a)
      (timed_range start stop duration (fun t => t) samples fuel)) := by
  have hnn : ∀ m, 0 ≤ samples m := fun m => le_trans h0 (hmono (Nat.zero_le m))
  have hadj : ∀ m, samples m ≤ samples (m + 1) := fun m => hmono (Nat.le_succ m)
  refine ⟨?_, ?_, ?_⟩
  · intro v hv
    rw [timed_range_eq_vals] at hv
    exact timed_range_vals_mem_bounds start stop duration samples hd hnn fuel 0 v hv
  · intro hspan
    rw [timed_range_eq_vals]
    exact timed_range_vals_chain_le start stop duration samples hd hadj hspan fuel 0
  · intro hspan
    rw [timed_range_eq_vals]
    exact timed_range_vals_chain_ge start stop duration samples hd hadj hspan fuel 0

theorem timed_range_identity_monotone_witness :
    (min (0 : ℚ) 2 ≤ 1 ∧ (1 : ℚ) ≤ max (0 : ℚ) 2) ∧
      List.Chain' (· ≤ ·) (timed_range 0 2 1 (fun t => t) (fun n => (n : ℚ) / 2) 5) := by
  have hmono : Monotone (fun n : ℕ => (n : ℚ) / 2) := by
    intro a b hab
    show (a : ℚ) / 2 ≤ (b : ℚ) / 2
    have hab2 : (a : ℚ) ≤ (b : ℚ) := by exact_mod_cast hab
    gcongr
  have h := timed_range_identity_monotone 0 2 1 (fun n => (n : ℚ) / 2) 5
    (by norm_num) (by norm_num) hmono
  refine ⟨h.1 1 ?_, h.2.1 (by norm_num)⟩
  norm_num [timed_range, timed_range_aux, timed_range_step, t_scaled]

/-- C7: reading `brightness` immediately after a successful
`set brightness(v)` with an integer `v` returns exactly `v` (the model has
no concurrent external mutation). -/
theorem brightness_roundtrip (ctl ctl2 : AcpiBrightnessControl) (v : ℤ)
    (h : brightness_set ctl (v : ℚ) = Except.ok ctl2) :
    brightness_get ctl2 = v := by
  obtain ⟨-, rfl⟩ := brightness_set_ok_elim ctl ctl2 (v : ℚ) h
  exact pyInt_intCast v

theorem brightness_roundtrip_witness : brightness_get ⟨10, 7⟩ = 7 :=
  brightness_roundtrip ⟨10, 5⟩ ⟨10, 7⟩ 7 (by norm_num [brightness_set, pyInt])

/-- C8 (code bug at operand 0): for `set`/`inc`/`dec` a missing operand is
reported as a usage error with exit code 1 before the device is touched,
and a provided nonzero operand proceeds to the animation; but the guard
`if not args.operand:` uses Python truthiness, so the provided integer
operand 0 is also treated as missing: `set 0` exits 1 with a usage error
instead of proceeding. -/
theorem main_dispatch_operand_falsy_bug :
    main_dispatch ⟨10, 5⟩ CliAction.set (some 0) = MainResult.usageError 1 ∧
    main_dispatch ⟨10, 5⟩ CliAction.set none = MainResult.usageError 1 ∧
    main_dispatch ⟨10, 5⟩ CliAction.inc none = MainResult.usageError 1 ∧
    main_dispatch ⟨10, 5⟩ CliAction.dec none = MainResult.usageError 1 ∧
    main_dispatch ⟨10, 5⟩ CliAction.set (some 3) = MainResult.animated 3 ∧
    main_dispatch ⟨10, 5⟩ CliAction.inc (some 3) = MainResult.animated 8 ∧
    main_dispatch ⟨10, 5⟩ CliAction.dec (some 3) = MainResult.animated 2 :=
  ⟨rfl, rfl, rfl, rfl, rfl, rfl, rfl⟩
